import Mathlib

/-!
Verification of the `DataCommands` export/import engine of redis-shell
(`src/redis_shell/extensions/data/commands.py`), shallowly embedded in Lean.

Python strings are modelled as lists of Unicode code points (`PyStr`),
Python byte strings as lists of byte values (`Bytes`).  Redis itself, the
file system and the thread scheduler are modelled as explicit oracles
(functions passed to the embedded operations).
-/

namespace RedisShell

/-- A Python `str`, as its list of Unicode code points. -/
abbrev PyStr := List Nat

/-- A Python `bytes`, as its list of byte values (each `< 256`). -/
abbrev Bytes := List Nat

/-- Code points of a Lean string literal, for writing concrete `PyStr` values. -/
def pstr (s : String) : PyStr := s.data.map Char.toNat

/-- Model of Python `str.isspace` for a single code point (the whitespace
code points recognised by CPython). -/
def pyIsSpace (c : Nat) : Bool :=
  (9 ≤ c && c ≤ 13) || c == 32 || (28 ≤ c && c ≤ 31) || c == 0x85 || c == 0xA0 ||
  c == 0x1680 || (0x2000 ≤ c && c ≤ 0x200A) || c == 0x2028 || c == 0x2029 ||
  c == 0x202F || c == 0x205F || c == 0x3000

/-- Model of Python `c.isprintable() or c.isspace()` (the test used by
`DataCommands._format_for_command` on each decoded character).  It is exact
for code points below `0x100`; higher code points are treated as printable
unless they are whitespace, which is the common case (the source delegates
the exotic Unicode categories to Python's tables). -/
def pyPrintableOrSpace (c : Nat) : Bool :=
  (0x20 ≤ c && c ≤ 0x7E) || pyIsSpace c || (0xA1 ≤ c && c != 0xAD)

/-- A Python value flowing through the codec: `None`, a `str`, or a `bytes`. -/
inductive PyVal where
  | vnone : PyVal
  | vstr (s : PyStr) : PyVal
  | vbytes (b : Bytes) : PyVal
  deriving DecidableEq, Repr

/-! ### base64 (the parts of Python's `base64` module used by the codec) -/

/-- The base64 alphabet: digit value (0..63) to code point. -/
def b64chr (n : Nat) : Nat :=
  if n < 26 then 65 + n
  else if n < 52 then 97 + (n - 26)
  else if n < 62 then 48 + (n - 52)
  else if n = 62 then 43 else 47

/-- The base64 alphabet: code point to digit value. -/
def b64dig? (c : Nat) : Option Nat :=
  if 65 ≤ c ∧ c ≤ 90 then some (c - 65)
  else if 97 ≤ c ∧ c ≤ 122 then some (c - 97 + 26)
  else if 48 ≤ c ∧ c ≤ 57 then some (c - 48 + 52)
  else if c = 43 then some 62
  else if c = 47 then some 63
  else none

/-- Whether a code point is a base64 alphabet character. -/
def isB64 (c : Nat) : Bool := (b64dig? c).isSome

/-- Model of `base64.b64encode` (standard alphabet, `=` padding). -/
def b64encode : Bytes → PyStr
  | [] => []
  | [b1] => [b64chr (b1 / 4), b64chr (b1 % 4 * 16), 61, 61]
  | [b1, b2] => [b64chr (b1 / 4), b64chr (b1 % 4 * 16 + b2 / 16), b64chr (b2 % 16 * 4), 61]
  | b1 :: b2 :: b3 :: rest =>
    b64chr (b1 / 4) :: b64chr (b1 % 4 * 16 + b2 / 16) ::
      b64chr (b2 % 16 * 4 + b3 / 64) :: b64chr (b3 % 64) :: b64encode rest

/-- Decoding of a cleaned base64 digit stream.  The `Bool` records whether the
original input contained a padding character, which Python's lenient decoder
requires before it accepts a final group of two or three digits. -/
def b64decodeMain : PyStr → Bool → Option Bytes
  | [], _ => some []
  | c1 :: c2 :: c3 :: c4 :: rest, p =>
    match b64dig? c1, b64dig? c2, b64dig? c3, b64dig? c4 with
    | some v1, some v2, some v3, some v4 =>
      match b64decodeMain rest p with
      | some bs =>
        some ((v1 * 4 + v2 / 16) :: (v2 % 16 * 16 + v3 / 4) :: (v3 % 4 * 64 + v4) :: bs)
      | none => none
    | _, _, _, _ => none
  | [c1, c2], true =>
    match b64dig? c1, b64dig? c2 with
    | some v1, some v2 => some [v1 * 4 + v2 / 16]
    | _, _ => none
  | [c1, c2, c3], true =>
    match b64dig? c1, b64dig? c2, b64dig? c3 with
    | some v1, some v2, some v3 => some [v1 * 4 + v2 / 16, v2 % 16 * 16 + v3 / 4]
    | _, _, _ => none
  | _, _ => none

/-- Model of `base64.b64decode` with `validate=False`: characters outside the
alphabet are discarded, processing stops at the first `=`, and a final short
group is accepted only when padding was present. -/
def b64decode? (s : PyStr) : Option Bytes :=
  b64decodeMain ((s.takeWhile (· != 61)).filter isB64) (s.any (· == 61))

/-! ### UTF-8 (the parts of Python's codecs used by the codec) -/

/-- UTF-8 encoding of one code point (Python `str.encode('utf-8')`, per character). -/
def utf8EncodeChar (c : Nat) : Bytes :=
  if c < 0x80 then [c]
  else if c < 0x800 then [0xC0 + c / 0x40, 0x80 + c % 0x40]
  else if c < 0x10000 then [0xE0 + c / 0x1000, 0x80 + c / 0x40 % 0x40, 0x80 + c % 0x40]
  else [0xF0 + c / 0x40000, 0x80 + c / 0x1000 % 0x40, 0x80 + c / 0x40 % 0x40, 0x80 + c % 0x40]

/-- UTF-8 encoding of a string (Python `str.encode('utf-8')`). -/
def utf8Encode : PyStr → Bytes
  | [] => []
  | c :: t => utf8EncodeChar c ++ utf8Encode t

/-- The two-byte UTF-8 arm: continuation check, then prepend the code point. -/
def utf8Arm2 (b1 b2 : Nat) (tail? : Option PyStr) : Option PyStr :=
  if 0x80 ≤ b2 ∧ b2 < 0xC0 then
    tail?.map (((b1 - 0xC0) * 0x40 + (b2 - 0x80)) :: ·)
  else none

/-- The three-byte UTF-8 arm (with the overlong and surrogate exclusions). -/
def utf8Arm3 (b1 b2 b3 : Nat) (tail? : Option PyStr) : Option PyStr :=
  if (0x80 ≤ b2 ∧ b2 < 0xC0) ∧ (0x80 ≤ b3 ∧ b3 < 0xC0) ∧
      (b1 = 0xE0 → 0xA0 ≤ b2) ∧ (b1 = 0xED → b2 < 0xA0) then
    tail?.map (((b1 - 0xE0) * 0x1000 + (b2 - 0x80) * 0x40 + (b3 - 0x80)) :: ·)
  else none

/-- The four-byte UTF-8 arm (with the overlong and range exclusions). -/
def utf8Arm4 (b1 b2 b3 b4 : Nat) (tail? : Option PyStr) : Option PyStr :=
  if (0x80 ≤ b2 ∧ b2 < 0xC0) ∧ (0x80 ≤ b3 ∧ b3 < 0xC0) ∧ (0x80 ≤ b4 ∧ b4 < 0xC0) ∧
      (b1 = 0xF0 → 0x90 ≤ b2) ∧ (b1 = 0xF4 → b2 < 0x90) then
    tail?.map (((b1 - 0xF0) * 0x40000 + (b2 - 0x80) * 0x1000 +
      (b3 - 0x80) * 0x40 + (b4 - 0x80)) :: ·)
  else none

/-- Strict UTF-8 decoding, fuel-driven (the fuel only bounds recursion depth;
`utf8Decode?` below supplies enough for the whole input): rejects truncated
sequences, stray continuation bytes, overlong encodings, surrogates and code
points above `0x10FFFF`, returning `none` where Python raises
`UnicodeDecodeError`. -/
def utf8DecodeAux : Nat → Bytes → Option PyStr
  | _, [] => some []
  | 0, _ :: _ => none
  | fuel + 1, b1 :: t1 =>
    if b1 < 0x80 then (utf8DecodeAux fuel t1).map (b1 :: ·)
    else if b1 < 0xC2 then none
    else if b1 < 0xE0 then
      match t1 with
      | b2 :: t2 => utf8Arm2 b1 b2 (utf8DecodeAux fuel t2)
      | [] => none
    else if b1 < 0xF0 then
      match t1 with
      | b2 :: b3 :: t3 => utf8Arm3 b1 b2 b3 (utf8DecodeAux fuel t3)
      | _ => none
    else if b1 < 0xF5 then
      match t1 with
      | b2 :: b3 :: b4 :: t4 => utf8Arm4 b1 b2 b3 b4 (utf8DecodeAux fuel t4)
      | _ => none
    else none

/-- Strict UTF-8 decoding (Python `bytes.decode('utf-8')`). -/
def utf8Decode? (l : Bytes) : Option PyStr := utf8DecodeAux l.length l

/-! ### The key codec (`DataCommands._format_for_command` / `_escape_quotes`,
and the argument decoding inside `DataCommands._import`) -/

/-- Model of `DataCommands._escape_quotes`: `s.replace('"', '\\"')`. -/
def escapeQuotes : PyStr → PyStr
  | [] => []
  | c :: t => if c = 34 then 92 :: 34 :: escapeQuotes t else c :: escapeQuotes t

/-- The import side's `arg.replace('\\"', '"')` (leftmost, non-overlapping). -/
def unescapeQuotes : PyStr → PyStr
  | 92 :: 34 :: t => 34 :: unescapeQuotes t
  | c :: t => c :: unescapeQuotes t
  | [] => []

/-- Model of `DataCommands._format_for_command`: `None` becomes `""`; a
`bytes` value that decodes as printable UTF-8 is double-quoted with `"`
escaped; any other `bytes` value is base64-encoded and wrapped as
`"\x<base64>"`; a `str` value is double-quoted with `"` escaped. -/
def formatForCommand : PyVal → PyStr
  | .vnone => [34, 34]
  | .vbytes b =>
    match utf8Decode? b with
    | some s =>
      if s.all pyPrintableOrSpace then 34 :: escapeQuotes s ++ [34]
      else 34 :: 92 :: 120 :: b64encode b ++ [34]
    | none => 34 :: 92 :: 120 :: b64encode b ++ [34]
  | .vstr s => 34 :: escapeQuotes s ++ [34]

/-- State of the character-by-character command-line tokenizer of
`DataCommands._import` (lines 923-939): collected parts, the current part
(kept reversed here for structural recursion), and the inside-quotes flag. -/
structure TokState where
  parts : List PyStr
  cur : PyStr
  inQ : Bool
  deriving DecidableEq, Repr

/-- Whether the (reversed) current part ends with a backslash, i.e. Python's
`current_part.endswith('\\')` on the un-reversed part. -/
def head92 (l : PyStr) : Bool := decide (l.head? = some 92)

/-- Whether the (reversed) current part ends with two backslashes, i.e.
Python's `current_part.endswith('\\\\')` on the un-reversed part. -/
def head9292 (l : PyStr) : Bool := decide (l.head? = some 92 ∧ (l.drop 1).head? = some 92)

/-- One character step of the tokenizer: a `"` toggles the quote state unless
the current part ends with a single (unescaped) backslash; whitespace outside
quotes closes the current part; every other character is appended. -/
def tokStep (st : TokState) (c : Nat) : TokState :=
  if c = 34 then
    if head92 st.cur = false ∨ head9292 st.cur = true then
      ⟨st.parts, 34 :: st.cur, !st.inQ⟩
    else
      ⟨st.parts, 34 :: st.cur, st.inQ⟩
  else if pyIsSpace c ∧ st.inQ = false then
    if st.cur = [] then st else ⟨st.parts ++ [st.cur.reverse], [], st.inQ⟩
  else
    ⟨st.parts, c :: st.cur, st.inQ⟩

/-- The tokenizer: split a line into parts, honouring double-quoted spans. -/
def tokenize (line : PyStr) : List PyStr :=
  let st := line.foldl tokStep ⟨[], [], false⟩
  st.parts ++ (if st.cur = [] then [] else [st.cur.reverse])

/-- Per-token decoding of `DataCommands._import` (lines 950-972): strip
surrounding double quotes; a stripped token starting with `\x` is
base64-decoded to `bytes` (falling back to the stripped text when decoding
fails); otherwise `\"` is unescaped; an unquoted token passes through. -/
def processArg (arg : PyStr) : PyVal :=
  if arg.head? = some 34 ∧ arg.getLast? = some 34 then
    match (arg.drop 1).dropLast with
    | 92 :: 120 :: restB64 =>
      match b64decode? restB64 with
      | some bs => .vbytes bs
      | none => .vstr (92 :: 120 :: restB64)
    | inner => .vstr (unescapeQuotes inner)
  else .vstr arg

/-- The import-side tokenization-and-decoding algorithm applied to the
encoding of a single value: the encoded value must tokenize as one part,
which is then decoded by `processArg`. -/
def decodeValue (line : PyStr) : Option PyVal :=
  match tokenize line with
  | [arg] => some (processArg arg)
  | _ => none

/-- Whether a string starts with a double quote character. -/
def headIs34 (l : PyStr) : Bool := decide (l.head? = some 34)

/-- Whether a string contains the two-character substring `\"` (a backslash
immediately followed by a double quote). -/
def hasEscQT : PyStr → Bool
  | [] => false
  | c :: t => (c == 92 && headIs34 t) || hasEscQT t

/-- Whether a string starts with the two literal characters `\x`. -/
def startsBsx (l : PyStr) : Bool :=
  decide (l.head? = some 92 ∧ (l.drop 1).head? = some 120)

/-- The byte content a decoded argument hands to the Redis client:
`redis-py` UTF-8-encodes `str` arguments, and passes `bytes` through. -/
def pyvalBytes : PyVal → Bytes
  | .vnone => []
  | .vstr s => utf8Encode s
  | .vbytes b => b

/-- Values on which the encoder/decoder pair round-trips: `str` values (and
printable-UTF-8 `bytes` values) must not begin with the literal `\x` (which
collides with the base64 escape namespace) and must not contain the
substring `\"` (which desynchronises the tokenizer's quote tracking); all
other `bytes` values take the base64 path unconditionally. -/
def okValue : PyVal → Bool
  | .vnone => false
  | .vstr s => !hasEscQT s && !startsBsx s
  | .vbytes b =>
    b.all (· < 256) &&
      (match utf8Decode? b with
       | some s => !s.all pyPrintableOrSpace || (!hasEscQT s && !startsBsx s)
       | none => true)

/-! ### The type-dispatch exporter (`DataCommands._export_thread_func`)

The Redis client is abstracted as the data each key's type-specific reads
return; the thread's shared cancellation flag (`self._stop_event`) as a
function from observation index to the value `is_set()` returns there. -/

/-- Python `' '.join(parts)`. -/
def joinSpace : List PyStr → PyStr
  | [] => []
  | [p] => p
  | p :: rest => p ++ 32 :: joinSpace rest

/-- Decimal rendering of a number, for counters embedded in messages. -/
def natStr (n : Nat) : PyStr := pstr (toString n)

/-- One key's Redis type tag together with the payload its type-specific
reads returned.  `fetchErr` stands for the per-key `try/except` path: the
type query or read raised, before anything was written for that key.
`rejsonErr` stands for the JSON branch's inner `except`: `r.json().get`
or serialization raised (message `str(e)`).  Sorted-set scores and stream
entry ids are carried as their textual renderings (the source interpolates
them into f-strings unquoted). -/
inductive KeyData where
  | str (v : Option Bytes)
  | hash (fields : List (Bytes × Bytes))
  | list (items : List Bytes)
  | set (items : List Bytes)
  | zset (items : List (Bytes × PyStr))
  | stream (entries : List (PyStr × List (Bytes × Bytes)))
  | rejson (jsonStr : PyStr)
  | rejsonErr (msg : PyStr)
  | other (tag : PyStr)
  | fetchErr
  deriving DecidableEq, Repr

/-- `_format_for_command` on a `bytes` value. -/
def fmtB (v : Bytes) : PyStr := formatForCommand (.vbytes v)

/-- `_format_for_command` on a possibly-`None` read result (`r.get`). -/
def fmtOpt : Option Bytes → PyStr
  | none => formatForCommand .vnone
  | some b => fmtB b

/-- The lines `_export_thread_func` writes for one key (its type-dispatch
body, identical in the KEYS and SCAN branches).  `rejson` carries the
`json.dumps` rendering of the document as a string. -/
def exportKey (key : Bytes) (d : KeyData) : List PyStr :=
  let ks := fmtB key
  match d with
  | .str v => [pstr "SET " ++ ks ++ 32 :: fmtOpt v]
  | .hash fields =>
    [joinSpace ((pstr "HSET " ++ ks) :: fields.map (fun fv => fmtB fv.1 ++ 32 :: fmtB fv.2))]
  | .list items =>
    [pstr "DEL " ++ ks, joinSpace ((pstr "RPUSH " ++ ks) :: items.map fmtB)]
  | .set items =>
    [pstr "DEL " ++ ks, joinSpace ((pstr "SADD " ++ ks) :: items.map fmtB)]
  | .zset items =>
    [pstr "DEL " ++ ks,
      joinSpace ((pstr "ZADD " ++ ks) :: items.map (fun ms => ms.2 ++ 32 :: fmtB ms.1))]
  | .stream entries =>
    (pstr "DEL " ++ ks) :: entries.map (fun e =>
      pstr "XADD " ++ ks ++ 32 :: e.1 ++
        (e.2.map (fun fv => 32 :: fmtB fv.1 ++ 32 :: fmtB fv.2)).flatten)
  | .rejson jstr => [pstr "JSON.SET " ++ ks ++ pstr " $ " ++ formatForCommand (.vstr jstr)]
  | .rejsonErr msg => [pstr "# Error exporting JSON data for key " ++ ks ++ pstr ": " ++ msg]
  | .other tag => [pstr "# Unsupported type " ++ tag ++ pstr " for key " ++ ks]
  | .fetchErr => []

/-- The successive values written to `self._export_status`. -/
inductive ExpStatus where
  | scanning
  | progress (n : Nat)
  | cancelled
  | capWarning (maxIter : Nat)
  | emptyFileWarning
  | createClientError
  | success (n : Nat) (size : Nat)
  deriving DecidableEq, Repr

/-- The mutable state threaded through the per-key loop: the next
cancellation-flag observation index, the processed-key counter, the lines
written to the file so far, the status writes so far (oldest first), and
whether the loop returned on cancellation. -/
structure BatchState where
  idx : Nat
  processed : Nat
  lines : List PyStr
  statuses : List ExpStatus
  cancelled : Bool
  deriving DecidableEq, Repr

/-- The per-key loop over one batch of keys (lines 420-537 for the KEYS
branch, 586-703 for a SCAN page): check the stop event before each key and
return with a cancelled status if set; a key whose reads raised is skipped
(console log only); otherwise write its lines, advance the counter, and
surface a progress status every 10 keys. -/
def batchLoop (stop : Nat → Bool) : List (Bytes × KeyData) → BatchState → BatchState
  | [], st => st
  | (k, d) :: rest, st =>
    if stop st.idx then
      ⟨st.idx + 1, st.processed, st.lines, st.statuses ++ [.cancelled], true⟩
    else if d = .fetchErr then
      batchLoop stop rest ⟨st.idx + 1, st.processed, st.lines, st.statuses, false⟩
    else
      batchLoop stop rest ⟨st.idx + 1, st.processed + 1, st.lines ++ exportKey k d,
        if (st.processed + 1) % 10 = 0 then st.statuses ++ [.progress (st.processed + 1)]
        else st.statuses, false⟩

/-- The KEYS-branch export (small databases or `--force-keys`): one batch
over the full `r.keys(pattern)` listing, entered with the scanning status. -/
def exportKeysRun (stop : Nat → Bool) (keys : List (Bytes × KeyData)) : BatchState :=
  batchLoop stop keys ⟨0, 0, [], [.scanning], false⟩

/-! ### The SCAN-branch loop (lines 542-730) -/

/-- A cursor value as the loop sees it: the loop itself works with the
string sentinel `'0'`, while a server reply may be numeric (bytes replies
are decoded to `str` by the source before any comparison, so they appear
here as `s` values). -/
inductive Cur where
  | s (v : PyStr)
  | i (n : Nat)
  deriving DecidableEq, Repr

/-- Python's `cursor == '0'` comparison (an `int` cursor never equals the
string sentinel). -/
def curIsZeroStr : Cur → Bool
  | .s v => v == pstr "0"
  | .i _ => false

/-- `max_iterations = 10000  # Safety limit to prevent infinite loops`. -/
def maxIterations : Nat := 10000

/-- The SCAN loop's result: the final per-key state and the value of
`iteration_count` on exit. -/
structure ScanOut where
  final : BatchState
  iterations : Nat
  deriving DecidableEq, Repr

/-- One run of the `while iteration_count < max_iterations` SCAN loop.
`fuel` is the number of iterations the `while` condition still allows;
`count` is `iteration_count`; `seen` is the `seen_cursors` set (as the list
of values added, membership being all that is used).  The server is the
oracle `f`, mapping a cursor to the reply `(next cursor, page of keys)` —
a deterministic model, which covers the repeated-cursor scenario.  Each
iteration: bump the count, return cancelled if the stop event is set, break
on a previously seen non-sentinel cursor, otherwise record the cursor, scan,
process the page (which may itself observe cancellation), and break when the
new cursor is the string sentinel. -/
def scanLoopAux (f : Cur → Cur × List (Bytes × KeyData)) (stop : Nat → Bool) :
    Nat → Nat → Cur → List Cur → BatchState → ScanOut
  | 0, count, _, _, st => ⟨st, count⟩
  | fuel + 1, count, cursor, seen, st =>
    if stop st.idx then
      ⟨⟨st.idx + 1, st.processed, st.lines, st.statuses ++ [.cancelled], true⟩, count + 1⟩
    else if cursor ∈ seen ∧ curIsZeroStr cursor = false then
      ⟨⟨st.idx + 1, st.processed, st.lines, st.statuses, false⟩, count + 1⟩
    else
      let reply := f cursor
      let st' := batchLoop stop reply.2 ⟨st.idx + 1, st.processed, st.lines, st.statuses, false⟩
      if st'.cancelled then ⟨st', count + 1⟩
      else if curIsZeroStr reply.1 then ⟨st', count + 1⟩
      else scanLoopAux f stop fuel (count + 1) reply.1 (seen ++ [cursor]) st'

/-- The SCAN branch: run the loop from the string cursor `'0'` with an empty
seen set, then surface the safety-limit warning status when the iteration
cap was reached (the cancelled path returned from inside the loop without
reaching that check). -/
def scanRun (f : Cur → Cur × List (Bytes × KeyData)) (stop : Nat → Bool) : ScanOut :=
  let out := scanLoopAux f stop maxIterations 0 (.s (pstr "0")) [] ⟨0, 0, [], [.scanning], false⟩
  if out.final.cancelled then out
  else if maxIterations ≤ out.iterations then
    ⟨⟨out.final.idx, out.final.processed, out.final.lines,
      out.final.statuses ++ [.capWarning maxIterations], false⟩, out.iterations⟩
  else out

/-- The cursor the loop holds at the start of its `n`-th iteration when the
server is the deterministic oracle `f`. -/
def cursSeq (f : Cur → Cur × List (Bytes × KeyData)) : Nat → Cur
  | 0 => .s (pstr "0")
  | n + 1 => (f (cursSeq f n)).1

/-! ### The export orchestrator (`DataCommands._export`, lines 176-245) -/

/-- The orchestrator's job-tracking state: the worker thread handle (absent
before any run, else its `is_alive()` value), the shared stop flag, whether
the status field holds the starting message, and a ghost counter of every
`threading.Thread(...).start()` performed. -/
structure OrchState where
  workerHandle : Option Bool
  stopSet : Bool
  starting : Bool
  spawnCount : Nat
  deriving DecidableEq, Repr

/-- What `/data export` (without `--cancel`) returns to the caller. -/
inductive StartResult where
  | alreadyRunning
  | started
  deriving DecidableEq, Repr

/-- `self._export_thread and self._export_thread.is_alive()`. -/
def handleAlive (st : OrchState) : Bool := st.workerHandle == some true

/-- The start path of `DataCommands._export` (lines 192-239): reject when a
worker handle reports alive; otherwise clear the stop event, set the
starting status, spawn the worker thread and return the acknowledgement. -/
def exportStart (st : OrchState) : OrchState × StartResult :=
  if handleAlive st then (st, .alreadyRunning)
  else
    ({ workerHandle := some true, stopSet := false, starting := true,
       spawnCount := st.spawnCount + 1 }, .started)

/-! ### Run outcome and the durable `last_export` summary (lines 752-804) -/

/-- The persisted `last_export` record (its timestamp, an external clock
read, is not modelled). -/
structure Summary where
  pattern : PyStr
  file : PyStr
  keysExported : Nat
  fileSize : Nat
  deriving DecidableEq, Repr

/-- The bytes the export file holds: each line UTF-8 encoded plus `\n`. -/
def fileContent (lines : List PyStr) : Bytes :=
  (lines.map (fun l => utf8Encode l ++ [10])).flatten

/-- `os.path.getsize` on the written file. -/
def fileSize (lines : List PyStr) : Nat := (fileContent lines).length

/-- The tail of `_export_thread_func` on the KEYS path: client-construction
failure ends the run with an error status; a cancelled loop returns with the
cancelled status; an empty output file ends with a warning; otherwise the
`last_export` summary is persisted (overwriting `prev`) and the success
status is set.  Returns the terminal status and the durable state after the
run. -/
def exportRun (clientErr : Bool) (keys : List (Bytes × KeyData)) (stop : Nat → Bool)
    (pattern file : PyStr) (prev : Option Summary) : ExpStatus × Option Summary :=
  if clientErr then (.createClientError, prev)
  else
    let r := exportKeysRun stop keys
    if r.cancelled then (.cancelled, prev)
    else if fileSize r.lines = 0 then (.emptyFileWarning, prev)
    else (.success r.processed (fileSize r.lines),
      some ⟨pattern, file, r.processed, fileSize r.lines⟩)

/-! ### The import replayer (`DataCommands._import`, lines 806-1009)

Command execution against the client is abstracted as an oracle `exec`
from the parsed command name and argument list to whether the body of the
per-line `try` completed without raising (`r.execute_command`, the
`JSON.SET` special case's `json.loads` and `r.json().set` included). -/

/-- Python `str.strip()`. -/
def pyStrip (l : PyStr) : PyStr :=
  ((l.dropWhile pyIsSpace).reverse.dropWhile pyIsSpace).reverse

/-- Python `str.upper()`, modelled on the ASCII letters (command names in
export files are ASCII). -/
def pyUpper (l : PyStr) : PyStr :=
  l.map (fun c => if 97 ≤ c ∧ c ≤ 122 then c - 32 else c)

/-- Lines 915-975 for one line: strip it; skip it when empty or a comment;
tokenize it; skip it when no parts result; otherwise return the upper-cased
command name and the decoded arguments. -/
def parseLine (line : PyStr) : Option (PyStr × List PyVal) :=
  let l := pyStrip line
  if l.isEmpty || l.head? == some 35 then none
  else
    match tokenize l with
    | [] => none
    | cmd :: args => some (pyUpper cmd, args.map processArg)

/-- The two counters of `_import` plus the trace of commands handed to the
client, in file order. -/
structure ImportCounts where
  succeeded : Nat
  failed : Nat
  trace : List (PyStr × List PyVal)
  deriving DecidableEq, Repr

/-- The per-line loop of `_import` (lines 911-991): a skipped line touches
nothing; an executed line bumps the success counter; a line whose execution
raises bumps the failure counter; either way the loop continues with the
next line. -/
def importLoop (exec : PyStr → List PyVal → Bool) :
    List PyStr → ImportCounts → ImportCounts
  | [], acc => acc
  | line :: rest, acc =>
    match parseLine line with
    | none => importLoop exec rest acc
    | some (cmd, args) =>
      if exec cmd args then
        importLoop exec rest ⟨acc.succeeded + 1, acc.failed, acc.trace ++ [(cmd, args)]⟩
      else
        importLoop exec rest ⟨acc.succeeded, acc.failed + 1, acc.trace ++ [(cmd, args)]⟩

/-- Whether a line parses and its execution succeeds. -/
def lineSucceeds (exec : PyStr → List PyVal → Bool) (line : PyStr) : Bool :=
  match parseLine line with
  | some (cmd, args) => exec cmd args
  | none => false

/-- Whether a line parses and its execution raises. -/
def lineFails (exec : PyStr → List PyVal → Bool) (line : PyStr) : Bool :=
  match parseLine line with
  | some (cmd, args) => !exec cmd args
  | none => false

/-- The persisted `last_import` record (timestamp not modelled). -/
structure ImportSummary where
  file : PyStr
  commandsExecuted : Nat
  commandsFailed : Nat
  deriving DecidableEq, Repr

/-- Line 817: `f"Error: File '{file_path}' does not exist."`. -/
def missingFileMsg (path : PyStr) : PyStr :=
  pstr "Error: File " ++ 39 :: path ++ 39 :: pstr " does not exist."

/-- Line 1006: the completion message with both counters. -/
def completedMsg (s f : Nat) : PyStr :=
  pstr "Import completed. " ++ natStr s ++
    pstr " commands executed successfully, " ++ natStr f ++ pstr " failed."

/-- `DataCommands._import`: a missing file returns the error message at once,
before any client interaction and before the durable state is touched;
otherwise the file's lines are replayed and the `last_import` summary is
overwritten.  Returns the message, the durable state after the run, and the
trace of commands handed to the client. -/
def importRun (fileExists : Bool) (path : PyStr) (lines : List PyStr)
    (exec : PyStr → List PyVal → Bool) (prev : Option ImportSummary) :
    PyStr × Option ImportSummary × List (PyStr × List PyVal) :=
  if fileExists then
    let r := importLoop exec lines ⟨0, 0, []⟩
    (completedMsg r.succeeded r.failed, some ⟨path, r.succeeded, r.failed⟩, r.trace)
  else (missingFileMsg path, prev, [])

/-! ### Time-series export, modelled from the spec

The time-series branch of the threaded exporter is not present under the
source tree (`commands.py` there has no `TSDB-TYPE` arm; only the tests and
demo scripts reference it), so it is modelled from spec §4.2. -/

/-- Modelled from the spec: "stripping surrounding quotes if present" on a
raw sample value. -/
def stripTsQuotes (s : PyStr) : PyStr :=
  (((s.dropWhile (· == 34)).reverse).dropWhile (· == 34)).reverse

/-- Modelled from the spec: whether a stripped raw sample value reads as a
decimal number (optional sign, digits, at most one decimal point). -/
def isDecimalNum (s : PyStr) : Bool :=
  let t := if s.head? == some 45 then s.drop 1 else s
  !t.isEmpty && t.all (fun c => (48 ≤ c && c ≤ 57) || c == 46) &&
    t.count 46 ≤ 1 && t ≠ [46]

set_option linter.unusedVariables false in
/-- Modelled from the spec: the `TS.CREATE` line reconstructing the series
configuration — retention and labels from the source series, the duplicate
policy forced to `LAST` regardless of the source's `srcDupPolicy`. -/
def tsCreateLine (key : Bytes) (retention : Nat) (srcDupPolicy : PyStr)
    (labels : List (PyStr × PyStr)) : PyStr :=
  pstr "TS.CREATE " ++ fmtB key ++ pstr " RETENTION " ++ natStr retention ++
    pstr " DUPLICATE_POLICY LAST" ++
    (if labels.isEmpty then []
     else pstr " LABELS " ++ joinSpace (labels.map (fun lv => lv.1 ++ 32 :: lv.2)))

/-- Modelled from the spec: one `TS.ADD` line per sample carrying the decimal
value, or an inline `# Error converting ...` comment for a malformed sample. -/
def tsSampleLine (key : Bytes) (tv : Nat × PyStr) : PyStr :=
  let v := stripTsQuotes tv.2
  if isDecimalNum v then
    pstr "TS.ADD " ++ fmtB key ++ 32 :: natStr tv.1 ++ 32 :: v
  else
    pstr "# Error converting sample value for key " ++ fmtB key ++ pstr ": " ++ tv.2

/-- Modelled from the spec: the lines the exporter emits for one
time-series key. -/
def tsExport (key : Bytes) (retention : Nat) (srcDupPolicy : PyStr)
    (labels : List (PyStr × PyStr)) (samples : List (Nat × PyStr)) : List PyStr :=
  tsCreateLine key retention srcDupPolicy labels :: samples.map (tsSampleLine key)

/-! ## Theorems -/

theorem b64chr_spec : ∀ n < 64, b64dig? (b64chr n) = some n ∧ b64chr n ≠ 61 ∧
    isB64 (b64chr n) = true ∧ b64chr n ≠ 34 ∧ pyIsSpace (b64chr n) = false := by decide

theorem b64_roundtrip : ∀ (b : Bytes), (∀ x ∈ b, x < 256) → b64decode? (b64encode b) = some b := by
  intro b
  match b with
  | [] => intro _; rfl
  | [b1] =>
    intro hb
    have h1 : b1 < 256 := hb b1 (by simp)
    obtain ⟨d1, n1, i1, _, _⟩ := b64chr_spec (b1 / 4) (by omega)
    obtain ⟨d2, n2, i2, _, _⟩ := b64chr_spec (b1 % 4 * 16) (by omega)
    simp only [b64encode, b64decode?]
    rw [List.takeWhile_cons_of_pos (by simpa using n1), List.takeWhile_cons_of_pos (by simpa using n2)]
    simp only [List.takeWhile_cons, bne_self_eq_false, Bool.false_eq_true, if_false]
    simp only [List.filter_cons, i1, i2, if_true, List.filter_nil,
      List.any_cons, List.any_nil, beq_self_eq_true, Bool.or_true, Bool.true_or]
    simp only [b64decodeMain, d1, d2]
    have e : b1 / 4 * 4 + b1 % 4 * 16 / 16 = b1 := by omega
    rw [e]
  | [b1, b2] =>
    intro hb
    have h1 : b1 < 256 := hb b1 (by simp)
    have h2 : b2 < 256 := hb b2 (by simp)
    obtain ⟨d1, n1, i1, _, _⟩ := b64chr_spec (b1 / 4) (by omega)
    obtain ⟨d2, n2, i2, _, _⟩ := b64chr_spec (b1 % 4 * 16 + b2 / 16) (by omega)
    obtain ⟨d3, n3, i3, _, _⟩ := b64chr_spec (b2 % 16 * 4) (by omega)
    simp only [b64encode, b64decode?]
    rw [List.takeWhile_cons_of_pos (by simpa using n1), List.takeWhile_cons_of_pos (by simpa using n2),
      List.takeWhile_cons_of_pos (by simpa using n3)]
    simp only [List.takeWhile_cons, bne_self_eq_false, Bool.false_eq_true, if_false]
    simp only [List.filter_cons, i1, i2, i3, if_true, List.filter_nil,
      List.any_cons, List.any_nil, beq_self_eq_true, Bool.or_true, Bool.true_or]
    simp only [b64decodeMain, d1, d2, d3]
    have e1 : b1 / 4 * 4 + (b1 % 4 * 16 + b2 / 16) / 16 = b1 := by omega
    have e2 : (b1 % 4 * 16 + b2 / 16) % 16 * 16 + b2 % 16 * 4 / 4 = b2 := by omega
    rw [e1, e2]
  | b1 :: b2 :: b3 :: rest =>
    intro hb
    have h1 : b1 < 256 := hb b1 (by simp)
    have h2 : b2 < 256 := hb b2 (by simp)
    have h3 : b3 < 256 := hb b3 (by simp)
    have ih := b64_roundtrip rest (fun x hx => hb x (by simp [hx]))
    obtain ⟨d1, n1, i1, _, _⟩ := b64chr_spec (b1 / 4) (by omega)
    obtain ⟨d2, n2, i2, _, _⟩ := b64chr_spec (b1 % 4 * 16 + b2 / 16) (by omega)
    obtain ⟨d3, n3, i3, _, _⟩ := b64chr_spec (b2 % 16 * 4 + b3 / 64) (by omega)
    obtain ⟨d4, n4, i4, _, _⟩ := b64chr_spec (b3 % 64) (by omega)
    simp only [b64encode, b64decode?] at ih ⊢
    rw [List.takeWhile_cons_of_pos (by simpa using n1), List.takeWhile_cons_of_pos (by simpa using n2),
      List.takeWhile_cons_of_pos (by simpa using n3), List.takeWhile_cons_of_pos (by simpa using n4)]
    simp only [List.filter_cons, i1, i2, i3, i4, if_true,
      List.any_cons, (by simpa using n1 : (b64chr (b1 / 4) == 61) = false),
      (by simpa using n2 : (b64chr (b1 % 4 * 16 + b2 / 16) == 61) = false),
      (by simpa using n3 : (b64chr (b2 % 16 * 4 + b3 / 64) == 61) = false),
      (by simpa using n4 : (b64chr (b3 % 64) == 61) = false), Bool.false_or]
    simp only [b64decodeMain, d1, d2, d3, d4, ih]
    have e1 : b1 / 4 * 4 + (b1 % 4 * 16 + b2 / 16) / 16 = b1 := by omega
    have e2 : (b1 % 4 * 16 + b2 / 16) % 16 * 16 + (b2 % 16 * 4 + b3 / 64) / 4 = b2 := by omega
    have e3 : (b2 % 16 * 4 + b3 / 64) % 4 * 64 + b3 % 64 = b3 := by omega
    rw [e1, e2, e3]
termination_by b => b.length
decreasing_by simp; omega
theorem utf8EncodeChar2 (b1 b2 : Nat) (h1 : 0xC2 ≤ b1) (h2 : b1 < 0xE0)
    (h3 : 0x80 ≤ b2) (h4 : b2 < 0xC0) :
    utf8EncodeChar ((b1 - 0xC0) * 0x40 + (b2 - 0x80)) = [b1, b2] := by
  have hge : ¬ ((b1 - 0xC0) * 0x40 + (b2 - 0x80) < 0x80) := by omega
  have hlt : (b1 - 0xC0) * 0x40 + (b2 - 0x80) < 0x800 := by omega
  simp only [utf8EncodeChar, if_neg hge, if_pos hlt, List.cons.injEq, and_true]
  constructor <;> omega

theorem utf8EncodeChar3 (b1 b2 b3 : Nat) (h1 : 0xE0 ≤ b1) (h2 : b1 < 0xF0)
    (h3 : 0x80 ≤ b2) (h4 : b2 < 0xC0) (h5 : 0x80 ≤ b3) (h6 : b3 < 0xC0)
    (h7 : b1 = 0xE0 → 0xA0 ≤ b2) :
    utf8EncodeChar ((b1 - 0xE0) * 0x1000 + (b2 - 0x80) * 0x40 + (b3 - 0x80)) = [b1, b2, b3] := by
  have hge : ¬ ((b1 - 0xE0) * 0x1000 + (b2 - 0x80) * 0x40 + (b3 - 0x80) < 0x80) := by omega
  have hge2 : ¬ ((b1 - 0xE0) * 0x1000 + (b2 - 0x80) * 0x40 + (b3 - 0x80) < 0x800) := by omega
  have hlt : (b1 - 0xE0) * 0x1000 + (b2 - 0x80) * 0x40 + (b3 - 0x80) < 0x10000 := by omega
  simp only [utf8EncodeChar, if_neg hge, if_neg hge2, if_pos hlt, List.cons.injEq, and_true]
  refine ⟨by omega, by omega, by omega⟩

theorem utf8EncodeChar4 (b1 b2 b3 b4 : Nat) (h1 : 0xF0 ≤ b1) (h2 : b1 < 0xF5)
    (h3 : 0x80 ≤ b2) (h4 : b2 < 0xC0) (h5 : 0x80 ≤ b3) (h6 : b3 < 0xC0)
    (h7 : 0x80 ≤ b4) (h8 : b4 < 0xC0) (h9 : b1 = 0xF0 → 0x90 ≤ b2) :
    utf8EncodeChar ((b1 - 0xF0) * 0x40000 + (b2 - 0x80) * 0x1000 +
      (b3 - 0x80) * 0x40 + (b4 - 0x80)) = [b1, b2, b3, b4] := by
  have hge : ¬ ((b1 - 0xF0) * 0x40000 + (b2 - 0x80) * 0x1000 +
      (b3 - 0x80) * 0x40 + (b4 - 0x80) < 0x80) := by omega
  have hge2 : ¬ ((b1 - 0xF0) * 0x40000 + (b2 - 0x80) * 0x1000 +
      (b3 - 0x80) * 0x40 + (b4 - 0x80) < 0x800) := by omega
  have hge3 : ¬ ((b1 - 0xF0) * 0x40000 + (b2 - 0x80) * 0x1000 +
      (b3 - 0x80) * 0x40 + (b4 - 0x80) < 0x10000) := by omega
  simp only [utf8EncodeChar, if_neg hge, if_neg hge2, if_neg hge3, List.cons.injEq, and_true]
  refine ⟨by omega, by omega, by omega, by omega⟩

theorem utf8Aux_roundtrip : ∀ (fuel : Nat) (l : Bytes) (s : PyStr),
    utf8DecodeAux fuel l = some s → utf8Encode s = l := by
  intro fuel
  induction fuel with
  | zero =>
    intro l s h
    match l with
    | [] => simp only [utf8DecodeAux, Option.some.injEq] at h; simp [← h, utf8Encode]
    | b :: t => simp [utf8DecodeAux] at h
  | succ fuel ih =>
    intro l s h
    match l with
    | [] => simp only [utf8DecodeAux, Option.some.injEq] at h; simp [← h, utf8Encode]
    | b1 :: t1 =>
      simp only [utf8DecodeAux] at h
      split at h
      · -- one byte: b1 < 0x80
        rename_i h1
        cases hd : utf8DecodeAux fuel t1 with
        | none => rw [hd] at h; simp at h
        | some s' =>
          rw [hd] at h
          simp only [Option.map_some', Option.some.injEq] at h
          subst h
          simp only [utf8Encode, utf8EncodeChar, if_pos h1, ih t1 s' hd]
          rfl
      · split at h
        · simp at h
        · split at h
          · -- two bytes
            rename_i h1 h2 h3
            split at h
            · rename_i b2 t2
              rw [utf8Arm2] at h
              split at h
              · rename_i hc
                cases hd : utf8DecodeAux fuel t2 with
                | none => rw [hd] at h; simp at h
                | some s' =>
                  rw [hd] at h
                  simp only [Option.map_some', Option.some.injEq] at h
                  subst h
                  simp only [utf8Encode, ih t2 s' hd]
                  rw [utf8EncodeChar2 b1 b2 (by omega) (by omega) hc.1 hc.2]
                  rfl
              · simp at h
            · simp at h
          · split at h
            · -- three bytes
              rename_i h1 h2 h3 h4
              split at h
              · rename_i b2 b3 t3
                rw [utf8Arm3] at h
                split at h
                · rename_i hc
                  cases hd : utf8DecodeAux fuel t3 with
                  | none => rw [hd] at h; simp at h
                  | some s' =>
                    rw [hd] at h
                    simp only [Option.map_some', Option.some.injEq] at h
                    subst h
                    simp only [utf8Encode, ih t3 s' hd]
                    rw [utf8EncodeChar3 b1 b2 b3 (by omega) (by omega)
                      hc.1.1 hc.1.2 hc.2.1.1 hc.2.1.2 hc.2.2.1]
                    rfl
                · simp at h
              · simp at h
            · split at h
              · -- four bytes
                rename_i h1 h2 h3 h4 h5
                split at h
                · rename_i b2 b3 b4 t4
                  rw [utf8Arm4] at h
                  split at h
                  · rename_i hc
                    cases hd : utf8DecodeAux fuel t4 with
                    | none => rw [hd] at h; simp at h
                    | some s' =>
                      rw [hd] at h
                      simp only [Option.map_some', Option.some.injEq] at h
                      subst h
                      simp only [utf8Encode, ih t4 s' hd]
                      rw [utf8EncodeChar4 b1 b2 b3 b4 (by omega) (by omega)
                        hc.1.1 hc.1.2 hc.2.1.1 hc.2.1.2 hc.2.2.1.1 hc.2.2.1.2 hc.2.2.2.1]
                      rfl
                  · simp at h
                · simp at h
              · simp at h

theorem utf8_roundtrip (l : Bytes) (s : PyStr) (h : utf8Decode? l = some s) :
    utf8Encode s = l :=
  utf8Aux_roundtrip l.length l s h
theorem unescape_cons_ne (c : Nat) (l : PyStr) (h : ¬(c = 92 ∧ headIs34 l = true)) :
    unescapeQuotes (c :: l) = c :: unescapeQuotes l := by
  rw [unescapeQuotes.eq_def]
  split
  · rename_i t heq
    injection heq with h1 h2
    exact absurd ⟨h1, by rw [h2]; rfl⟩ h
  · rename_i c' t' hno heq
    injection heq with h1 h2
    subst h1; subst h2
    rfl
  · rename_i heq; exact absurd heq (by simp)

theorem headIs34_escape (t : PyStr) (h : headIs34 t = false) :
    headIs34 (escapeQuotes t) = false := by
  match t with
  | [] => rfl
  | a :: t2 =>
    have ha : a ≠ 34 := by
      intro hcon; subst hcon; simp [headIs34] at h
    simp only [escapeQuotes, if_neg ha]
    simp [headIs34, ha]

theorem unescape_escape (s : PyStr) (h : hasEscQT s = false) :
    unescapeQuotes (escapeQuotes s) = s := by
  induction s with
  | nil => rfl
  | cons c t iht =>
    have hor : (c == 92 && headIs34 t) = false ∧ hasEscQT t = false := by
      simpa [hasEscQT, Bool.or_eq_false_iff] using h
    by_cases hc : c = 34
    · subst hc
      simp only [escapeQuotes, if_pos rfl]
      show 34 :: unescapeQuotes (escapeQuotes t) = 34 :: t
      rw [iht hor.2]
    · simp only [escapeQuotes, if_neg hc]
      by_cases hc92 : c = 92
      · subst hc92
        have h34 : headIs34 t = false := by
          rcases Bool.and_eq_false_iff.mp hor.1 with h' | h'
          · simp at h'
          · exact h'
        rw [unescape_cons_ne 92 (escapeQuotes t)
          (fun hcon => by rw [headIs34_escape t h34] at hcon; exact absurd hcon.2 (by simp))]
        rw [iht hor.2]
      · rw [unescape_cons_ne c (escapeQuotes t) (fun hcon => hc92 hcon.1)]
        rw [iht hor.2]
theorem tokStep_plain (p : List PyStr) (r : PyStr) (c : Nat) (hc : c ≠ 34) :
    tokStep ⟨p, r, true⟩ c = ⟨p, c :: r, true⟩ := by
  simp [tokStep, if_neg hc]

theorem tokStep_34 (st : TokState) : ∃ q, tokStep st 34 = ⟨st.parts, 34 :: st.cur, q⟩ := by
  by_cases hc : head92 st.cur = false ∨ head9292 st.cur = true
  · exact ⟨!st.inQ, by simp [tokStep, hc]⟩
  · exact ⟨st.inQ, by simp only [tokStep, if_pos rfl, if_neg hc]; rfl⟩

theorem tokStep_quote_after_bs (p : List PyStr) (r : PyStr) (hr : head92 r = false) :
    tokStep ⟨p, 92 :: r, true⟩ 34 = ⟨p, 34 :: 92 :: r, true⟩ := by
  have h1 : head92 (92 :: r) = true := by simp [head92]
  have h2 : head9292 (92 :: r) = false := by
    simp only [head9292, head92] at hr ⊢
    simp_all
  simp [tokStep, h1, h2]

theorem tok_accum : ∀ (content : PyStr) (p : List PyStr) (r : PyStr),
    (∀ c ∈ content, c ≠ 34) →
    List.foldl tokStep ⟨p, r, true⟩ content = ⟨p, content.reverse ++ r, true⟩ := by
  intro content
  induction content with
  | nil => intro p r _; simp
  | cons c t ih =>
    intro p r h
    rw [List.foldl_cons, tokStep_plain p r c (h c (by simp)),
      ih p (c :: r) (fun x hx => h x (by simp [hx]))]
    simp

theorem tok_escape : ∀ (s : PyStr), hasEscQT s = false → ∀ (p : List PyStr) (r : PyStr),
    (headIs34 s = true → head92 r = false) →
    List.foldl tokStep ⟨p, r, true⟩ (escapeQuotes s) = ⟨p, (escapeQuotes s).reverse ++ r, true⟩ := by
  intro s
  induction s with
  | nil => intro _ p r _; simp [escapeQuotes]
  | cons c t ih =>
    intro h p r hr
    have hor : (c == 92 && headIs34 t) = false ∧ hasEscQT t = false := by
      simpa [hasEscQT, Bool.or_eq_false_iff] using h
    by_cases hc : c = 34
    · subst hc
      have hr92 : head92 r = false := hr (by simp [headIs34])
      rw [show escapeQuotes (34 :: t) = 92 :: 34 :: escapeQuotes t from by simp [escapeQuotes]]
      rw [List.foldl_cons, tokStep_plain p r 92 (by omega), List.foldl_cons,
        tokStep_quote_after_bs p r hr92,
        ih hor.2 p (34 :: 92 :: r) (fun _ => by simp [head92])]
      simp
    · simp only [escapeQuotes, if_neg hc]
      have hnext : headIs34 t = true → head92 (c :: r) = false := by
        intro h34
        rcases Bool.and_eq_false_iff.mp hor.1 with h' | h'
        · simp only [beq_eq_false_iff_ne, ne_eq] at h'
          simp [head92, h']
        · rw [h34] at h'; exact absurd h' (by simp)
      rw [List.foldl_cons, tokStep_plain p r c hc, ih hor.2 p (c :: r) hnext]
      simp

theorem tokenize_quoted_escape (s : PyStr) (h : hasEscQT s = false) :
    tokenize (34 :: escapeQuotes s ++ [34]) = [34 :: escapeQuotes s ++ [34]] := by
  unfold tokenize
  rw [show (34 :: escapeQuotes s ++ [34] : PyStr) = 34 :: (escapeQuotes s ++ [34]) from rfl,
    List.foldl_cons]
  rw [show tokStep ⟨[], [], false⟩ 34 = ⟨[], [34], true⟩ from by simp [tokStep, head92]]
  rw [List.foldl_append, tok_escape s h [] [34] (fun _ => by simp [head92])]
  simp only [List.foldl_cons, List.foldl_nil]
  obtain ⟨q, hq⟩ := tokStep_34 ⟨[], (escapeQuotes s).reverse ++ [34], true⟩
  rw [hq]
  simp

theorem tokenize_quoted_noq (content : PyStr) (h : ∀ c ∈ content, c ≠ 34) :
    tokenize (34 :: content ++ [34]) = [34 :: content ++ [34]] := by
  unfold tokenize
  rw [show (34 :: content ++ [34] : PyStr) = 34 :: (content ++ [34]) from rfl, List.foldl_cons]
  rw [show tokStep ⟨[], [], false⟩ 34 = ⟨[], [34], true⟩ from by simp [tokStep, head92]]
  rw [List.foldl_append, tok_accum content [] [34] h]
  simp only [List.foldl_cons, List.foldl_nil]
  obtain ⟨q, hq⟩ := tokStep_34 ⟨[], content.reverse ++ [34], true⟩
  rw [hq]
  simp
theorem b64chr_ne34 (n : Nat) : b64chr n ≠ 34 := by
  unfold b64chr; split_ifs <;> omega

theorem b64encode_ne34 : ∀ (b : Bytes) (c : Nat), c ∈ b64encode b → c ≠ 34 := by
  intro b
  match b with
  | [] => intro c hc; simp [b64encode] at hc
  | [b1] =>
    intro c hc
    simp only [b64encode, List.mem_cons, List.mem_singleton] at hc
    rcases hc with h | h | h | h
    · exact h ▸ b64chr_ne34 _
    · exact h ▸ b64chr_ne34 _
    · omega
    · simp at h; omega
  | [b1, b2] =>
    intro c hc
    simp only [b64encode, List.mem_cons, List.mem_singleton] at hc
    rcases hc with h | h | h | h
    · exact h ▸ b64chr_ne34 _
    · exact h ▸ b64chr_ne34 _
    · exact h ▸ b64chr_ne34 _
    · simp at h; omega
  | b1 :: b2 :: b3 :: rest =>
    intro c hc
    simp only [b64encode, List.mem_cons] at hc
    rcases hc with h | h | h | h | h
    · exact h ▸ b64chr_ne34 _
    · exact h ▸ b64chr_ne34 _
    · exact h ▸ b64chr_ne34 _
    · exact h ▸ b64chr_ne34 _
    · exact b64encode_ne34 rest c h
termination_by b => b.length
decreasing_by simp; omega

theorem escape_head (t : PyStr) :
    (escapeQuotes t).head? = (if headIs34 t = true then some 92 else t.head?) := by
  match t with
  | [] => simp [escapeQuotes, headIs34]
  | a :: t2 =>
    by_cases ha : a = 34
    · subst ha; simp [escapeQuotes, headIs34]
    · simp [escapeQuotes, if_neg ha, headIs34, ha]

theorem escape_not_bsx (s : PyStr) (hx : startsBsx s = false) :
    startsBsx (escapeQuotes s) = false := by
  match s with
  | [] => simp [escapeQuotes, startsBsx]
  | a :: t =>
    by_cases ha : a = 34
    · subst ha
      simp [escapeQuotes, startsBsx]
    · simp only [escapeQuotes, if_neg ha]
      by_cases ha92 : a = 92
      · subst ha92
        have ht : t.head? ≠ some 120 := by
          simp [startsBsx] at hx
          intro hcon
          exact absurd hcon (by simpa using hx)
        simp only [startsBsx, List.head?_cons, List.drop_one, decide_eq_false_iff_not, not_and]
        intro _
        rw [show (92 :: escapeQuotes t : PyStr).tail = escapeQuotes t from rfl, escape_head t]
        split
        · simp
        · simpa using ht
      · simp [startsBsx, ha92]
theorem processArg_b64 (b : Bytes) (hb : ∀ x ∈ b, x < 256) :
    processArg (34 :: 92 :: 120 :: b64encode b ++ [34]) = .vbytes b := by
  unfold processArg
  rw [if_pos ?side]
  case side =>
    constructor
    · rfl
    · rw [show (34 :: 92 :: 120 :: b64encode b ++ [34] : PyStr) =
        (34 :: 92 :: 120 :: b64encode b) ++ [34] from by simp]
      rw [List.getLast?_concat]
  rw [show ((34 :: 92 :: 120 :: b64encode b ++ [34] : PyStr).drop 1).dropLast =
      92 :: 120 :: b64encode b from ?inner]
  case inner =>
    rw [show ((34 :: 92 :: 120 :: b64encode b ++ [34] : PyStr).drop 1) =
      (92 :: 120 :: b64encode b) ++ [34] from by simp]
    exact List.dropLast_concat ..
  simp only [b64_roundtrip b hb]
theorem processArg_escape (s : PyStr) (h : hasEscQT s = false) (hx : startsBsx s = false) :
    processArg (34 :: escapeQuotes s ++ [34]) = .vstr s := by
  unfold processArg
  rw [if_pos ?side]
  case side =>
    constructor
    · rfl
    · rw [show (34 :: escapeQuotes s ++ [34] : PyStr) = (34 :: escapeQuotes s) ++ [34] from by simp]
      rw [List.getLast?_concat]
  rw [show ((34 :: escapeQuotes s ++ [34] : PyStr).drop 1).dropLast = escapeQuotes s from ?inner]
  case inner =>
    rw [show ((34 :: escapeQuotes s ++ [34] : PyStr).drop 1) = escapeQuotes s ++ [34] from by simp]
    exact List.dropLast_concat ..
  split
  · rename_i restB64 heq
    exfalso
    have : startsBsx (escapeQuotes s) = true := by rw [heq]; simp [startsBsx]
    rw [escape_not_bsx s hx] at this
    exact absurd this (by simp)
  · rw [unescape_escape s h]
theorem decode_quoted_escape (s : PyStr) (h : hasEscQT s = false) (hx : startsBsx s = false) :
    decodeValue (34 :: escapeQuotes s ++ [34]) = some (.vstr s) := by
  unfold decodeValue
  rw [tokenize_quoted_escape s h]
  show some (processArg (34 :: escapeQuotes s ++ [34])) = some (.vstr s)
  rw [processArg_escape s h hx]

theorem decode_quoted_b64 (b : Bytes) (hb : ∀ x ∈ b, x < 256) :
    decodeValue (34 :: 92 :: 120 :: b64encode b ++ [34]) = some (.vbytes b) := by
  unfold decodeValue
  rw [show (34 :: 92 :: 120 :: b64encode b ++ [34] : PyStr) =
    34 :: (92 :: 120 :: b64encode b) ++ [34] from by simp]
  rw [tokenize_quoted_noq (92 :: 120 :: b64encode b) ?noq]
  case noq =>
    intro c hc
    simp only [List.mem_cons] at hc
    rcases hc with h | h | h
    · omega
    · omega
    · exact b64encode_ne34 b c h
  show some (processArg (34 :: (92 :: 120 :: b64encode b) ++ [34])) = some (.vbytes b)
  rw [show (34 :: (92 :: 120 :: b64encode b) ++ [34] : PyStr) =
    34 :: 92 :: 120 :: b64encode b ++ [34] from by simp]
  rw [processArg_b64 b hb]

/-- C1 (amended): `decode(encode(v))` reproduces the original bytes exactly
for every value the encoder accepts whose printable form neither begins with
the literal two characters `\x` nor contains the substring `\"`; in
particular every `bytes` value taking the base64 path (null bytes, non-UTF-8
sequences) round-trips, as does every printable value with embedded double
quotes not preceded by a backslash. -/
theorem codec_roundtrip_amended (v : PyVal) (hv : okValue v = true) :
    ∃ w, decodeValue (formatForCommand v) = some w ∧ pyvalBytes w = pyvalBytes v := by
  match v with
  | .vnone => simp [okValue] at hv
  | .vstr s =>
    simp only [okValue, Bool.and_eq_true, Bool.not_eq_true'] at hv
    refine ⟨.vstr s, ?_, rfl⟩
    rw [show formatForCommand (.vstr s) = 34 :: escapeQuotes s ++ [34] from rfl]
    exact decode_quoted_escape s hv.1 hv.2
  | .vbytes b =>
    simp only [okValue, Bool.and_eq_true] at hv
    have hb : ∀ x ∈ b, x < 256 := by
      intro x hx
      have := hv.1
      rw [List.all_eq_true] at this
      simpa using this x hx
    cases hdec : utf8Decode? b with
    | some s =>
      by_cases hp : s.all pyPrintableOrSpace = true
      · have hok : (!hasEscQT s && !startsBsx s) = true := by
          have := hv.2
          rw [hdec] at this
          simp only [Bool.or_eq_true, Bool.not_eq_true'] at this
          rcases this with h' | h'
          · rw [hp] at h'; exact absurd h' (by simp)
          · exact h'
        simp only [Bool.and_eq_true, Bool.not_eq_true'] at hok
        refine ⟨.vstr s, ?_, ?_⟩
        · rw [show formatForCommand (.vbytes b) = 34 :: escapeQuotes s ++ [34] from by
            simp [formatForCommand, hdec, hp]]
          exact decode_quoted_escape s hok.1 hok.2
        · simpa [pyvalBytes] using utf8_roundtrip b s hdec
      · refine ⟨.vbytes b, ?_, rfl⟩
        rw [show formatForCommand (.vbytes b) = 34 :: 92 :: 120 :: b64encode b ++ [34] from by
          simp [formatForCommand, hdec, hp]]
        exact decode_quoted_b64 b hb
    | none =>
      refine ⟨.vbytes b, ?_, rfl⟩
      rw [show formatForCommand (.vbytes b) = 34 :: 92 :: 120 :: b64encode b ++ [34] from by
        simp [formatForCommand, hdec]]
      exact decode_quoted_b64 b hb
theorem importLoop_spec (exec : PyStr → List PyVal → Bool) :
    ∀ (lines : List PyStr) (acc : ImportCounts),
    importLoop exec lines acc =
      ⟨acc.succeeded + lines.countP (lineSucceeds exec),
       acc.failed + lines.countP (lineFails exec),
       acc.trace ++ lines.filterMap parseLine⟩ := by
  intro lines
  induction lines with
  | nil => intro acc; simp [importLoop, List.countP_nil]
  | cons line rest ih =>
    intro acc
    rw [importLoop.eq_def]
    cases hp : parseLine line with
    | none =>
      simp only [ih]
      have hs : lineSucceeds exec line = false := by simp [lineSucceeds, hp]
      have hf : lineFails exec line = false := by simp [lineFails, hp]
      simp [List.countP_cons, hs, hf, List.filterMap_cons, hp]
    | some ca =>
      obtain ⟨cmd, args⟩ := ca
      cases hx : exec cmd args with
      | true =>
        simp only [hx, if_true, ih]
        have hs : lineSucceeds exec line = true := by simp [lineSucceeds, hp, hx]
        have hf : lineFails exec line = false := by simp [lineFails, hp, hx]
        simp [List.countP_cons, hs, hf, List.filterMap_cons, hp, hx, ImportCounts.mk.injEq]
        omega
      | false =>
        simp only [hx, ih]
        have hs : lineSucceeds exec line = false := by simp [lineSucceeds, hp, hx]
        have hf : lineFails exec line = true := by simp [lineFails, hp, hx]
        simp [List.countP_cons, hs, hf, List.filterMap_cons, hp, hx, ImportCounts.mk.injEq]
        omega

/-- C2: partial-failure isolation of import — for every file and every
behaviour of command execution, the import loop runs to the end of the file,
reports as successes exactly the lines that parse and execute, as failures
exactly the lines that parse and raise, and attempts every parseable line in
order regardless of where failures occur. -/
theorem import_partial_failure (exec : PyStr → List PyVal → Bool) (lines : List PyStr) :
    (importLoop exec lines ⟨0, 0, []⟩).succeeded = lines.countP (lineSucceeds exec) ∧
    (importLoop exec lines ⟨0, 0, []⟩).failed = lines.countP (lineFails exec) ∧
    (importLoop exec lines ⟨0, 0, []⟩).trace = lines.filterMap parseLine := by
  rw [importLoop_spec exec lines ⟨0, 0, []⟩]
  simp
/-- C10: import rejects a missing file atomically — when the path names no
existing file, `_import` returns the error message naming the path, hands no
command to the client, and leaves the durable `last_import` state unchanged. -/
theorem import_missing_file (path : PyStr) (lines : List PyStr)
    (exec : PyStr → List PyVal → Bool) (prev : Option ImportSummary) :
    importRun false path lines exec prev = (missingFileMsg path, prev, []) := rfl

/-- C4: concurrency guard — when the previous worker handle reports alive, a
start request returns the already-running response with the state unchanged
and no thread spawned; when it does not, the start clears the stop event,
spawns exactly one new worker (recorded in the handle and the spawn count)
and returns the started acknowledgement, so a start after completion
succeeds and at most one worker is live at any time. -/
theorem export_start_guard (st : OrchState) :
    (handleAlive st = true → exportStart st = (st, .alreadyRunning)) ∧
    (handleAlive st = false →
      (exportStart st).2 = .started ∧
      (exportStart st).1.stopSet = false ∧
      (exportStart st).1.workerHandle = some true ∧
      (exportStart st).1.starting = true ∧
      (exportStart st).1.spawnCount = st.spawnCount + 1) ∧
    (handleAlive st = true → (exportStart st).1.spawnCount = st.spawnCount) := by
  by_cases h : handleAlive st = true
  · refine ⟨fun _ => ?_, fun hcon => absurd h (by simp [hcon]), fun _ => ?_⟩
    · simp [exportStart, h]
    · simp [exportStart, h]
  · have h' : handleAlive st = false := by simpa using h
    refine ⟨fun hcon => absurd hcon h, fun _ => ?_, fun hcon => absurd hcon h⟩
    simp [exportStart, h']

/-- C6 (counterexample): for a JSON-document key the exporter does not emit
a `# JSON.SET ... <base64_json:...>` comment — at a concrete key and document
the single emitted line is a live `JSON.SET` command whose first character is
not `#`. -/
theorem json_export_cex :
    exportKey (pstr "k") (.rejson (pstr "[1, 2]")) = [pstr "JSON.SET \"k\" $ \"[1, 2]\""] ∧
    (pstr "JSON.SET \"k\" $ \"[1, 2]\"").head? ≠ some 35 := by
  constructor
  · decide
  · decide

/-- C6 (amended): for every key of the JSON-document module type the
exporter emits a single live command line `JSON.SET <key> $ <value>` (never a
comment), where the value is the serialized document double-quoted with
internal quotes backslash-escaped; a failed document read instead emits one
`# Error exporting JSON data ...` comment line. -/
theorem json_export_live (k : Bytes) (jstr msg : PyStr) :
    exportKey k (.rejson jstr) =
      [pstr "JSON.SET " ++ fmtB k ++ pstr " $ " ++ (34 :: escapeQuotes jstr ++ [34])] ∧
    (∀ l ∈ exportKey k (.rejson jstr), l.head? = some 74) ∧
    exportKey k (.rejsonErr msg) =
      [pstr "# Error exporting JSON data for key " ++ fmtB k ++ pstr ": " ++ msg] ∧
    (∀ l ∈ exportKey k (.rejsonErr msg), l.head? = some 35) := by
  refine ⟨rfl, ?_, rfl, ?_⟩
  · intro l hl
    simp only [exportKey, List.mem_singleton] at hl
    subst hl
    rfl
  · intro l hl
    simp only [exportKey, List.mem_singleton] at hl
    subst hl
    rfl
theorem pstrApp_ne_nil (s : String) (t : PyStr) (hs : pstr s ≠ []) : pstr s ++ t ≠ [] := by
  intro hcon
  exact hs (List.append_eq_nil.mp hcon).1

theorem joinSpace_cons_ne_nil (p : PyStr) (rest : List PyStr) (hp : p ≠ []) :
    joinSpace (p :: rest) ≠ [] := by
  match rest with
  | [] => simpa [joinSpace] using hp
  | q :: rest2 =>
    rw [show joinSpace (p :: q :: rest2) = p ++ 32 :: joinSpace (q :: rest2) from by
      rw [joinSpace]
      simp]
    intro hcon
    have := (List.append_eq_nil.mp hcon).2
    simp at this

/-- C8 (counterexample): a key whose type-specific read raises leaves no
trace in the output file — the per-key `except` path writes nothing, so the
claim that no key is ever skipped silently fails at this input. -/
theorem key_trace_cex : exportKey (pstr "k") .fetchErr = [] := rfl

/-- C8 (amended): key-trace invariant for keys whose reads succeed — every
such key contributes at least one non-empty line to the file, and a key of
unrecognized type contributes exactly the `# Unsupported type <tag> for key
<key>` comment line; only a key whose read raises is skipped with console
logging alone. -/
theorem key_trace_amended (k : Bytes) (d : KeyData) (hd : d ≠ .fetchErr) :
    exportKey k d ≠ [] ∧
    (∀ tag, d = .other tag →
      exportKey k d = [pstr "# Unsupported type " ++ tag ++ pstr " for key " ++ fmtB k]) ∧
    (∀ l ∈ exportKey k d, l ≠ []) := by
  refine ⟨?_, ?_, ?_⟩
  · cases d <;> first
      | exact absurd rfl hd
      | simp [exportKey]
  · intro tag h
    subst h
    rfl
  · intro l hl
    match d with
    | .str v =>
      simp only [exportKey, List.mem_singleton] at hl
      subst hl; exact pstrApp_ne_nil "SET " _ (by decide)
    | .hash fields =>
      simp only [exportKey, List.mem_singleton] at hl
      subst hl
      exact joinSpace_cons_ne_nil _ _ (pstrApp_ne_nil "HSET " _ (by decide))
    | .list items =>
      simp only [exportKey, List.mem_cons, List.mem_singleton, List.not_mem_nil, or_false] at hl
      rcases hl with h | h
      · subst h; exact pstrApp_ne_nil "DEL " _ (by decide)
      · subst h; exact joinSpace_cons_ne_nil _ _ (pstrApp_ne_nil "RPUSH " _ (by decide))
    | .set items =>
      simp only [exportKey, List.mem_cons, List.mem_singleton, List.not_mem_nil, or_false] at hl
      rcases hl with h | h
      · subst h; exact pstrApp_ne_nil "DEL " _ (by decide)
      · subst h; exact joinSpace_cons_ne_nil _ _ (pstrApp_ne_nil "SADD " _ (by decide))
    | .zset items =>
      simp only [exportKey, List.mem_cons, List.mem_singleton, List.not_mem_nil, or_false] at hl
      rcases hl with h | h
      · subst h; exact pstrApp_ne_nil "DEL " _ (by decide)
      · subst h; exact joinSpace_cons_ne_nil _ _ (pstrApp_ne_nil "ZADD " _ (by decide))
    | .stream entries =>
      simp only [exportKey, List.mem_cons, List.mem_map] at hl
      rcases hl with h | ⟨e, _, h⟩
      · subst h; exact pstrApp_ne_nil "DEL " _ (by decide)
      · rw [← h]; exact pstrApp_ne_nil "XADD " _ (by decide)
    | .rejson jstr =>
      simp only [exportKey, List.mem_singleton] at hl
      subst hl; exact pstrApp_ne_nil "JSON.SET " _ (by decide)
    | .rejsonErr msg =>
      simp only [exportKey, List.mem_singleton] at hl
      subst hl; exact pstrApp_ne_nil "# Error exporting JSON data for key " _ (by decide)
    | .other tag =>
      simp only [exportKey, List.mem_singleton] at hl
      subst hl; exact pstrApp_ne_nil "# Unsupported type " _ (by decide)
    | .fetchErr => exact absurd rfl hd

/-- C8 (witness): the amended invariant at a key of an unrecognized type. -/
theorem key_trace_amended_witness :
    ((KeyData.other (pstr "graphdata") : KeyData) ≠ .fetchErr) ∧
    (exportKey (pstr "g") (.other (pstr "graphdata")) ≠ [] ∧
      (∀ tag, (KeyData.other (pstr "graphdata") : KeyData) = .other tag →
        exportKey (pstr "g") (.other (pstr "graphdata")) =
          [pstr "# Unsupported type " ++ tag ++ pstr " for key " ++ fmtB (pstr "g")]) ∧
      (∀ l ∈ exportKey (pstr "g") (.other (pstr "graphdata")), l ≠ [])) :=
  ⟨by decide, key_trace_amended (pstr "g") (.other (pstr "graphdata")) (by decide)⟩
/-- C7 (spec-modelled): time-series export — the emitted lines are one
`TS.CREATE` line reconstructing retention and labels with the duplicate
policy forced to `LAST` (the output is independent of the source's policy and
carries the literal `DUPLICATE_POLICY LAST`), followed by exactly one line
per sample: a `TS.ADD` line carrying the decimal value when the raw sample
converts, else an inline `# Error converting ...` comment, never an abort. -/
theorem ts_export_spec (key : Bytes) (retention : Nat) (p1 p2 : PyStr)
    (labels : List (PyStr × PyStr)) (samples : List (Nat × PyStr)) :
    tsExport key retention p1 labels samples = tsExport key retention p2 labels samples ∧
    (∃ pre post, tsCreateLine key retention p1 labels =
      pre ++ pstr " DUPLICATE_POLICY LAST" ++ post) ∧
    tsExport key retention p1 labels samples =
      tsCreateLine key retention p1 labels :: samples.map (tsSampleLine key) ∧
    (∀ tv ∈ samples,
      (isDecimalNum (stripTsQuotes tv.2) = true →
        tsSampleLine key tv =
          pstr "TS.ADD " ++ fmtB key ++ 32 :: natStr tv.1 ++ 32 :: stripTsQuotes tv.2) ∧
      (isDecimalNum (stripTsQuotes tv.2) = false → (tsSampleLine key tv).head? = some 35)) := by
  refine ⟨rfl, ?_, rfl, ?_⟩
  · refine ⟨pstr "TS.CREATE " ++ fmtB key ++ pstr " RETENTION " ++ natStr retention,
      (if labels.isEmpty then []
       else pstr " LABELS " ++ joinSpace (labels.map (fun lv => lv.1 ++ 32 :: lv.2))), ?_⟩
    simp [tsCreateLine, pstr]
  · intro tv _
    constructor
    · intro hgood
      simp [tsSampleLine, hgood]
    · intro hbad
      simp only [tsSampleLine, hbad, Bool.false_eq_true, if_false]
      rfl

/-- C7 (witness): a series with a blocking source policy exports with
`DUPLICATE_POLICY LAST`, a good sample and a malformed sample. -/
theorem ts_export_spec_witness :
    tsExport (pstr "test:temperature") 86400000 (pstr "BLOCK")
        [(pstr "sensor", pstr "temperature")] [(1642680000000, pstr "23.5"), (7, pstr "oops")] =
      [pstr "TS.CREATE \"test:temperature\" RETENTION 86400000 DUPLICATE_POLICY LAST LABELS sensor temperature",
       pstr "TS.ADD \"test:temperature\" 1642680000000 23.5",
       pstr "# Error converting sample value for key \"test:temperature\": oops"] ∧
    tsExport (pstr "test:temperature") 86400000 (pstr "BLOCK")
        [(pstr "sensor", pstr "temperature")] [(1642680000000, pstr "23.5"), (7, pstr "oops")] =
      tsExport (pstr "test:temperature") 86400000 (pstr "LAST")
        [(pstr "sensor", pstr "temperature")] [(1642680000000, pstr "23.5"), (7, pstr "oops")] := by
  constructor
  · decide
  · exact (ts_export_spec (pstr "test:temperature") 86400000 (pstr "BLOCK") (pstr "LAST")
      [(pstr "sensor", pstr "temperature")] [(1642680000000, pstr "23.5"), (7, pstr "oops")]).1
theorem batchLoop_nostop (stop : Nat → Bool) :
    ∀ (keys : List (Bytes × KeyData)) (st : BatchState),
    (∀ j, stop j = false) → st.cancelled = false →
    (batchLoop stop keys st).lines =
      st.lines ++ (keys.map (fun kd => exportKey kd.1 kd.2)).flatten ∧
    (batchLoop stop keys st).cancelled = false := by
  intro keys
  induction keys with
  | nil => intro st _ hc; simp [batchLoop, hc]
  | cons kd rest ih =>
    intro st hstop _
    obtain ⟨k, d⟩ := kd
    rw [batchLoop]
    rw [if_neg (by simp [hstop st.idx])]
    by_cases hderr : d = .fetchErr
    · subst hderr
      rw [if_pos rfl]
      have h := ih ⟨st.idx + 1, st.processed, st.lines, st.statuses, false⟩ hstop rfl
      refine ⟨?_, h.2⟩
      rw [h.1]
      simp [exportKey]
    · rw [if_neg hderr]
      have h := ih ⟨st.idx + 1, st.processed + 1, st.lines ++ exportKey k d,
        if (st.processed + 1) % 10 = 0 then st.statuses ++ [.progress (st.processed + 1)]
        else st.statuses, false⟩ hstop rfl
      refine ⟨?_, h.2⟩
      rw [h.1]
      simp
theorem batchLoop_cancel (stop : Nat → Bool) :
    ∀ (keys : List (Bytes × KeyData)) (st : BatchState) (i0 : Nat),
    (∀ j, j < i0 → stop (st.idx + j) = false) → stop (st.idx + i0) = true →
    i0 < keys.length →
    (batchLoop stop keys st).cancelled = true ∧
    (batchLoop stop keys st).statuses.getLast? = some .cancelled ∧
    (batchLoop stop keys st).processed ≤ st.processed + i0 ∧
    (batchLoop stop keys st).lines =
      st.lines ++ ((keys.take i0).map (fun kd => exportKey kd.1 kd.2)).flatten := by
  intro keys
  induction keys with
  | nil => intro st i0 _ _ hlen; simp at hlen
  | cons kd rest ih =>
    intro st i0 h1 h2 hlen
    obtain ⟨k, d⟩ := kd
    rw [batchLoop]
    match i0 with
    | 0 =>
      rw [if_pos (by simpa using h2)]
      refine ⟨rfl, ?_, by simp, by simp⟩
      simp [List.getLast?_concat]
    | i + 1 =>
      rw [if_neg (by simpa using h1 0 (by omega))]
      have harg : ∀ (st' : BatchState), st'.idx = st.idx + 1 →
          (∀ j, j < i → stop (st'.idx + j) = false) ∧ stop (st'.idx + i) = true := by
        intro st' hidx
        constructor
        · intro j hj
          have hv := h1 (1 + j) (by omega)
          rw [hidx, show st.idx + 1 + j = st.idx + (1 + j) from by omega]
          exact hv
        · rw [hidx, show st.idx + 1 + i = st.idx + (i + 1) from by omega]
          exact h2
      by_cases hderr : d = .fetchErr
      · subst hderr
        rw [if_pos rfl]
        have hh := harg ⟨st.idx + 1, st.processed, st.lines, st.statuses, false⟩ rfl
        have h := ih _ i hh.1 hh.2 (by simpa using hlen)
        refine ⟨h.1, h.2.1,
          Nat.le_trans h.2.2.1 (show st.processed + i ≤ st.processed + (i + 1) by omega), ?_⟩
        rw [h.2.2.2]
        simp [exportKey]
      · rw [if_neg hderr]
        have hh := harg ⟨st.idx + 1, st.processed + 1, st.lines ++ exportKey k d,
          if (st.processed + 1) % 10 = 0 then st.statuses ++ [.progress (st.processed + 1)]
          else st.statuses, false⟩ rfl
        have h := ih _ i hh.1 hh.2 (by simpa using hlen)
        refine ⟨h.1, h.2.1,
          Nat.le_trans h.2.2.1 (show st.processed + 1 + i ≤ st.processed + (i + 1) by omega), ?_⟩
        rw [h.2.2.2]
        simp
/-- C3: cancellation is honored between keys — if the shared cancellation
signal becomes set at observation `i0`, before the key iteration completes,
the worker returns with the cancelled status as its last status write,
processes no key from index `i0` on, reports a processed count strictly below
the matching set's size, and leaves the partial file holding exactly the
complete per-key line groups of the first `i0` keys — a prefix of the file
the uncancelled run would have written. -/
theorem export_cancel_between_keys (keys : List (Bytes × KeyData)) (stop : Nat → Bool)
    (i0 : Nat) (h1 : ∀ j, j < i0 → stop j = false) (h2 : stop i0 = true)
    (h3 : i0 < keys.length) :
    (exportKeysRun stop keys).cancelled = true ∧
    (exportKeysRun stop keys).statuses.getLast? = some .cancelled ∧
    (exportKeysRun stop keys).processed ≤ i0 ∧
    (exportKeysRun stop keys).processed < keys.length ∧
    (exportKeysRun stop keys).lines =
      ((keys.take i0).map (fun kd => exportKey kd.1 kd.2)).flatten ∧
    ∃ t, (exportKeysRun (fun _ => false) keys).lines = (exportKeysRun stop keys).lines ++ t := by
  have h := batchLoop_cancel stop keys ⟨0, 0, [], [.scanning], false⟩ i0
    (by intro j hj; simpa using h1 j hj) (by simpa using h2) h3
  have hfull := batchLoop_nostop (fun _ => false) keys ⟨0, 0, [], [.scanning], false⟩
    (fun _ => rfl) rfl
  refine ⟨h.1, h.2.1, by simpa using h.2.2.1, ?_, by simpa using h.2.2.2, ?_⟩
  · calc (exportKeysRun stop keys).processed ≤ 0 + i0 := h.2.2.1
      _ < keys.length := by omega
  · refine ⟨((keys.drop i0).map (fun kd => exportKey kd.1 kd.2)).flatten, ?_⟩
    unfold exportKeysRun at *
    rw [hfull.1, h.2.2.2]
    simp only [List.nil_append, List.append_assoc]
    rw [← List.flatten_append, ← List.map_append, List.take_append_drop]

/-- C3 (witness): a two-key export whose stop signal is set after the first
key is cancelled with one key processed. -/
theorem export_cancel_between_keys_witness :
    (∀ j, j < 1 → (fun i => decide (1 ≤ i)) j = false) ∧ (fun i => decide (1 ≤ i)) 1 = true ∧
    (1 < ([((pstr "a" : Bytes), KeyData.str (some (pstr "x"))),
          ((pstr "b" : Bytes), KeyData.str (some (pstr "y")))] :
        List (Bytes × KeyData)).length) ∧
    ((exportKeysRun (fun i => decide (1 ≤ i))
        [((pstr "a" : Bytes), KeyData.str (some (pstr "x"))),
         ((pstr "b" : Bytes), KeyData.str (some (pstr "y")))]).cancelled = true ∧
     (exportKeysRun (fun i => decide (1 ≤ i))
        [((pstr "a" : Bytes), KeyData.str (some (pstr "x"))),
         ((pstr "b" : Bytes), KeyData.str (some (pstr "y")))]).processed < 2) := by
  refine ⟨by decide, by decide, by decide, ?_⟩
  have h := export_cancel_between_keys
    [((pstr "a" : Bytes), KeyData.str (some (pstr "x"))),
     ((pstr "b" : Bytes), KeyData.str (some (pstr "y")))]
    (fun i => decide (1 ≤ i)) 1 (by decide) (by decide) (by decide)
  exact ⟨h.1, h.2.2.2.1⟩
theorem scanLoopAux_le (f : Cur → Cur × List (Bytes × KeyData)) (stop : Nat → Bool) :
    ∀ (fuel count : Nat) (cursor : Cur) (seen : List Cur) (st : BatchState),
    (scanLoopAux f stop fuel count cursor seen st).iterations ≤ count + fuel := by
  intro fuel
  induction fuel with
  | zero => intro count cursor seen st; rw [scanLoopAux]; simp
  | succ fuel ih =>
    intro count cursor seen st
    rw [scanLoopAux]
    split
    · show count + 1 ≤ count + (fuel + 1); omega
    · split
      · show count + 1 ≤ count + (fuel + 1); omega
      · dsimp only
        split
        · show count + 1 ≤ count + (fuel + 1); omega
        · split
          · show count + 1 ≤ count + (fuel + 1); omega
          · calc (scanLoopAux f stop fuel (count + 1) _ _ _).iterations
                ≤ count + 1 + fuel := ih _ _ _ _
              _ = count + (fuel + 1) := by omega
theorem scanLoopAux_repeat (f : Cur → Cur × List (Bytes × KeyData)) (i j : Nat) (hij : i < j)
    (hrep : cursSeq f j = cursSeq f i) :
    ∀ (fuel count : Nat) (seen : List Cur) (st : BatchState),
    st.cancelled = false →
    count ≤ j →
    (∀ k, k < count → cursSeq f k ∈ seen) →
    (1 ≤ count → curIsZeroStr (cursSeq f count) = false) →
    j + 1 ≤ count + fuel →
    (scanLoopAux f (fun _ => false) fuel count (cursSeq f count) seen st).iterations ≤ j + 1 := by
  intro fuel
  induction fuel with
  | zero =>
    intro count seen st _ hcj _ _ _
    rw [scanLoopAux]
    show count ≤ j + 1
    omega
  | succ fuel ih =>
    intro count seen st hc hcj hseen hz hfuel
    rw [scanLoopAux]
    rw [if_neg (by simp)]
    by_cases hbr : cursSeq f count ∈ seen ∧ curIsZeroStr (cursSeq f count) = false
    · rw [if_pos hbr]
      show count + 1 ≤ j + 1
      omega
    · rw [if_neg hbr]
      dsimp only
      have hcanc : (batchLoop (fun _ => false) (f (cursSeq f count)).2
          ⟨st.idx + 1, st.processed, st.lines, st.statuses, false⟩).cancelled = false :=
        (batchLoop_nostop (fun _ => false) (f (cursSeq f count)).2
          ⟨st.idx + 1, st.processed, st.lines, st.statuses, false⟩ (fun _ => rfl) rfl).2
      rw [if_neg (by rw [hcanc]; simp)]
      by_cases hz2 : curIsZeroStr (f (cursSeq f count)).1 = true
      · rw [if_pos hz2]
        show count + 1 ≤ j + 1
        omega
      · rw [if_neg hz2]
        have hclt : count < j := by
          rcases Nat.lt_or_ge count j with h | h
          · exact h
          · exfalso
            have hceq : count = j := by omega
            subst hceq
            have hmem : cursSeq f count ∈ seen := by
              rw [hrep]
              exact hseen i hij
            have hzc : curIsZeroStr (cursSeq f count) = false := hz (by omega)
            exact hbr ⟨hmem, hzc⟩
        have hseen2 : ∀ k, k < count + 1 → cursSeq f k ∈ seen ++ [cursSeq f count] := by
          intro k hk
          rcases Nat.lt_or_ge k count with h | h
          · exact List.mem_append_left _ (hseen k h)
          · have hkc : k = count := by omega
            subst hkc
            exact List.mem_append_right _ (by simp)
        have hznext : 1 ≤ count + 1 → curIsZeroStr (cursSeq f (count + 1)) = false := by
          intro _
          show curIsZeroStr (f (cursSeq f count)).1 = false
          simpa using hz2
        exact ih (count + 1) (seen ++ [cursSeq f count]) _ hcanc (by omega) hseen2 hznext (by omega)
theorem scanRun_iterations (f : Cur → Cur × List (Bytes × KeyData)) (stop : Nat → Bool) :
    (scanRun f stop).iterations =
      (scanLoopAux f stop maxIterations 0 (.s (pstr "0")) [] ⟨0, 0, [], [.scanning], false⟩).iterations := by
  unfold scanRun
  dsimp only
  split
  · rfl
  · split
    · rfl
    · rfl

/-- C5: scan-loop termination — for every server behaviour the paginated
enumeration performs at most `maxIterations = 10000` iterations; reaching
that cap on an uncancelled run records the safety-limit warning status; and
a cursor sequence that repeats (a cursor already seen, other than the
sentinel `'0'`) makes the loop break out within one iteration of the repeat
instead of spinning to the cap. -/
theorem scan_loop_termination (f : Cur → Cur × List (Bytes × KeyData)) (stop : Nat → Bool) :
    (scanRun f stop).iterations ≤ maxIterations ∧
    (maxIterations ≤ (scanRun f stop).iterations → (scanRun f stop).final.cancelled = false →
      ExpStatus.capWarning maxIterations ∈ (scanRun f stop).final.statuses) ∧
    (∀ i j, i < j → j < maxIterations → cursSeq f j = cursSeq f i →
      (scanRun f (fun _ => false)).iterations ≤ j + 1) := by
  refine ⟨?_, ?_, ?_⟩
  · rw [scanRun_iterations]
    simpa using scanLoopAux_le f stop maxIterations 0 (.s (pstr "0")) [] ⟨0, 0, [], [.scanning], false⟩
  · intro hcap hnc
    unfold scanRun at hcap hnc ⊢
    dsimp only at hcap hnc ⊢
    by_cases hcanc : (scanLoopAux f stop maxIterations 0 (.s (pstr "0")) []
        ⟨0, 0, [], [.scanning], false⟩).final.cancelled = true
    · rw [if_pos hcanc] at hnc
      exact absurd hcanc (by simp [hnc])
    · rw [if_neg hcanc] at hcap ⊢
      by_cases hge : maxIterations ≤ (scanLoopAux f stop maxIterations 0 (.s (pstr "0")) []
          ⟨0, 0, [], [.scanning], false⟩).iterations
      · rw [if_pos hge]
        simp
      · rw [if_neg hge] at hcap
        exact absurd hcap hge
  · intro i j hij hjlt hrep
    rw [scanRun_iterations]
    have h := scanLoopAux_repeat f i j hij hrep maxIterations 0 [] ⟨0, 0, [], [.scanning], false⟩
      rfl (by omega) (by intro k hk; omega) (by intro h; omega) (by simp only [maxIterations] at hjlt ⊢; omega)
    simpa using h
/-- C5 (witness): a server that always answers with the same numeric cursor
terminates the loop in at most three iterations. -/
theorem scan_loop_termination_witness :
    (1 < 2 ∧ 2 < maxIterations ∧
      cursSeq (fun _ => (Cur.i 5, [])) 2 = cursSeq (fun _ => (Cur.i 5, [])) 1) ∧
    (scanRun (fun _ => (Cur.i 5, [])) (fun _ => false)).iterations ≤ 3 :=
  ⟨⟨by decide, by simp [maxIterations], by decide⟩,
    (scan_loop_termination (fun _ => (Cur.i 5, [])) (fun _ => false)).2.2 1 2
      (by decide) (by simp [maxIterations]) (by decide)⟩
/-- C9: durable summary only on success — the run's terminal durable state
is the freshly written `last_export` summary (pattern, file, key count, file
size) exactly when the run ends in the success status, and is the unchanged
previous summary on every other outcome (client error, cancellation,
empty-file warning). -/
theorem export_summary_persist (clientErr : Bool) (keys : List (Bytes × KeyData))
    (stop : Nat → Bool) (pattern file : PyStr) (prev : Option Summary) :
    (∀ n size, (exportRun clientErr keys stop pattern file prev).1 = .success n size →
      (exportRun clientErr keys stop pattern file prev).2 = some ⟨pattern, file, n, size⟩) ∧
    ((∀ n size, (exportRun clientErr keys stop pattern file prev).1 ≠ .success n size) →
      (exportRun clientErr keys stop pattern file prev).2 = prev) := by
  unfold exportRun
  by_cases hce : clientErr = true
  · rw [if_pos hce]
    exact ⟨(fun n size h => nomatch h), fun _ => rfl⟩
  · rw [if_neg hce]
    dsimp only
    by_cases hcanc : (exportKeysRun stop keys).cancelled = true
    · rw [if_pos hcanc]
      exact ⟨(fun n size h => nomatch h), fun _ => rfl⟩
    · rw [if_neg hcanc]
      by_cases hsz : fileSize (exportKeysRun stop keys).lines = 0
      · rw [if_pos hsz]
        exact ⟨(fun n size h => nomatch h), fun _ => rfl⟩
      · rw [if_neg hsz]
        refine ⟨fun n size h => ?_, fun hne => ?_⟩
        · injection h with h1 h2
          subst h1; subst h2
          rfl
        · exact absurd rfl (hne _ _)

/-- C9 (witness): a successful one-key run persists its summary; a failed
run leaves the previous summary in place. -/
theorem export_summary_persist_witness :
    ((exportRun false [((pstr "k" : Bytes), KeyData.str (some (pstr "v")))] (fun _ => false)
        (pstr "*") (pstr "out.txt") none).1 = .success 1 9 →
      (exportRun false [((pstr "k" : Bytes), KeyData.str (some (pstr "v")))] (fun _ => false)
        (pstr "*") (pstr "out.txt") none).2 = some ⟨pstr "*", pstr "out.txt", 1, 9⟩) ∧
    ((exportRun true [] (fun _ => false) (pstr "*") (pstr "out.txt")
        (some ⟨pstr "p", pstr "f", 3, 7⟩)).1 = .createClientError ∧
      (exportRun true [] (fun _ => false) (pstr "*") (pstr "out.txt")
        (some ⟨pstr "p", pstr "f", 3, 7⟩)).2 = some ⟨pstr "p", pstr "f", 3, 7⟩) :=
  ⟨(export_summary_persist false [((pstr "k" : Bytes), KeyData.str (some (pstr "v")))]
      (fun _ => false) (pstr "*") (pstr "out.txt") none).1 1 9,
   by refine ⟨rfl, ?_⟩
      exact (export_summary_persist true [] (fun _ => false) (pstr "*") (pstr "out.txt")
        (some ⟨pstr "p", pstr "f", 3, 7⟩)).2 (fun n size h => nomatch h)⟩
/-- C1 (counterexample): the round-trip claim fails as stated — the printable
six-character value `\xYWJj` encodes to `"\xYWJj"`, which the import-side
decoder takes for a base64 escape and decodes to the three bytes `abc`, so
`decode(encode(v))` does not reproduce `v`. -/
theorem codec_roundtrip_cex :
    decodeValue (formatForCommand (.vstr (pstr "\\xYWJj"))) = some (.vbytes (pstr "abc")) ∧
      pyvalBytes (.vbytes (pstr "abc")) ≠ pyvalBytes (.vstr (pstr "\\xYWJj")) := by
  constructor
  · decide
  · decide

/-- C1 (witness): the amended round-trip at the binary value
`b'\xff\x00\xfe'`. -/
theorem codec_roundtrip_amended_witness : okValue (.vbytes [255, 0, 254]) = true ∧
    (∃ w, decodeValue (formatForCommand (.vbytes [255, 0, 254])) = some w ∧
      pyvalBytes w = pyvalBytes (.vbytes [255, 0, 254])) :=
  ⟨by decide, codec_roundtrip_amended (.vbytes [255, 0, 254]) (by decide)⟩
/-- C4 (witness): the guard at a state with a live worker and at a state
whose worker has finished. -/
theorem export_start_guard_witness :
    (handleAlive ⟨some true, true, false, 1⟩ = true ∧
      exportStart ⟨some true, true, false, 1⟩ = (⟨some true, true, false, 1⟩, .alreadyRunning)) ∧
    (handleAlive ⟨some false, true, false, 1⟩ = false ∧
      (exportStart ⟨some false, true, false, 1⟩).2 = .started ∧
      (exportStart ⟨some false, true, false, 1⟩).1.stopSet = false ∧
      (exportStart ⟨some false, true, false, 1⟩).1.spawnCount = 2) :=
  by
  have h1 := (export_start_guard ⟨some true, true, false, 1⟩).1 (by decide)
  have h2 := (export_start_guard ⟨some false, true, false, 1⟩).2.1 (by decide)
  exact ⟨⟨by decide, h1⟩, by decide, h2.1, h2.2.1, h2.2.2.2.2⟩

/-- C6 (witness): the amended JSON export at a concrete key and document. -/
theorem json_export_live_witness :
    exportKey (pstr "k") (.rejson (pstr "[1, 2]")) =
      [pstr "JSON.SET " ++ fmtB (pstr "k") ++ pstr " $ " ++
        (34 :: escapeQuotes (pstr "[1, 2]") ++ [34])] ∧
    (∀ l ∈ exportKey (pstr "k") (.rejson (pstr "[1, 2]")), l.head? = some 74) :=
  ⟨(json_export_live (pstr "k") (pstr "[1, 2]") (pstr "boom")).1,
   (json_export_live (pstr "k") (pstr "[1, 2]") (pstr "boom")).2.1⟩

end RedisShell
